import Mathlib

/-!
Verification development for the ITG2 encrypted-file reader
(`RageFileDriverCrypt_ITG2.cpp`).

The raw on-disk file is modelled as a `List Nat` of byte values; machine
`unsigned char` arithmetic is made explicit with `% 256`.  The AES-192
block-decrypt primitive and the SHA-512 and dongle key-derivation
primitives are external to the reader and are modelled as function
parameters.
-/

namespace ITG2

/-- Read `len` bytes of the raw file starting at offset `off`; returns
fewer bytes when the file is shorter (a short read). -/
def rawRead (raw : List Nat) (off len : Nat) : List Nat :=
  (raw.drop off).take len

/-- State of a `RageFileObjCrypt_ITG2` object.  `pos` is the underlying
file-descriptor position (which between reads doubles as the logical
plaintext cursor, exactly as the source uses it); `m_ctx` holds the
24-byte AES key standing for the expanded decryption key schedule. -/
structure CryptFile where
  pos : Nat
  m_iHeaderSize : Nat
  m_iFileSize : Nat
  m_ctx : List Nat
  m_sSecret : List Nat
deriving Repr, DecidableEq

/-- `SeekInternal`: set the raw position. -/
def SeekInternal (f : CryptFile) (p : Nat) : CryptFile := { f with pos := p }

/-- `Tell`: the current raw position. -/
def Tell (f : CryptFile) : Nat := f.pos

/-- `ReadDirect`: read up to `len` bytes at the current position,
advancing the position by the number of bytes actually delivered. -/
def ReadDirect (raw : List Nat) (f : CryptFile) (len : Nat) :
    List Nat × CryptFile :=
  let out := rawRead raw f.pos len
  (out, { f with pos := f.pos + out.length })

/-- `QuantizeUp` from RageUtil: round `i` up to a multiple of `n`. -/
def QuantizeUp (i n : Nat) : Nat := (i + n - 1) / n * n

/-- The 16-byte block of `buf` at block index `i` (`buf + i*16` in C). -/
def blockAt (buf : List Nat) (i : Nat) : List Nat :=
  (buf.drop (i * 16)).take 16

/-- The inner byte loop of `ReadInternal`:
`dcbuf[16 i + j] = xorbuf[j] ^ (backbuffer[j] - j)` in `unsigned char`
arithmetic. -/
def mixBlock (xorbuf backbuffer : List Nat) : List Nat :=
  (List.range 16).map fun j =>
    Nat.xor (xorbuf.getD j 0 % 256) ((backbuffer.getD j 0 % 256 + 256 - j) % 256)

/-- The block loop of `ReadInternal`: for each block, AES-decrypt the
ciphertext block, mix it with the backbuffer, then reset the backbuffer
to zeros at a 4080-byte boundary and to the block's ciphertext
otherwise. -/
def cryptLoop (A : List Nat → List Nat → List Nat) (key : List Nat)
    (startpos : Nat) (crbuf : List Nat) : Nat → List Nat → Nat → List Nat
  | _, _, 0 => []
  | i, backbuffer, n + 1 =>
      mixBlock (A key (blockAt crbuf i)) backbuffer
        ++ cryptLoop A key startpos crbuf (i + 1)
            (if (startpos + i * 16 + 16) % 4080 ≠ 0 then blockAt crbuf i
             else List.replicate 16 0) n

/-- Result of a read call: the bytes copied to the caller's buffer, the
returned count, and the file object afterwards. -/
structure ReadResult where
  out : List Nat
  ret : Nat
  file : CryptFile
deriving Repr

/-- `RageFileObjCrypt_ITG2::ReadInternal`, decrypting `bytes` plaintext
bytes starting at the current position.  `A key block` is the external
`aes_decrypt` primitive applied under `key`. -/
def ReadInternal (A : List Nat → List Nat → List Nat) (raw : List Nat)
    (f : CryptFile) (bytes : Nat) : ReadResult :=
  let oldpos := Tell f
  let startpos := oldpos / 16 * 16
  let endpos := QuantizeUp (oldpos + bytes) 16
  let bufsize := endpos - startpos
  let difference := oldpos - startpos
  let lookbehind :=
    if startpos % 4080 = 0 then (List.replicate 16 0, f)
    else ReadDirect raw (SeekInternal f (f.m_iHeaderSize + (startpos - 16))) 16
  let backbuffer := lookbehind.1
  let f1 := lookbehind.2
  let cr := ReadDirect raw (SeekInternal f1 (f1.m_iHeaderSize + startpos)) bufsize
  let crbuf := cr.1
  let f2 := cr.2
  let dcbuf := cryptLoop A f.m_ctx startpos crbuf 0 backbuffer (bufsize / 16)
  { out := (dcbuf.drop difference).take bytes
    ret := bytes
    file := SeekInternal f2 (oldpos + bytes) }

/-- Closed-form backbuffer used to decrypt the block whose first
plaintext offset is `a`: all zeros at a chain-reset boundary, otherwise
the 16 ciphertext bytes immediately preceding the block on disk. -/
def bbAbs (raw : List Nat) (hs a : Nat) : List Nat :=
  if a % 4080 = 0 then List.replicate 16 0 else rawRead raw (hs + a - 16) 16

/-- Closed-form plaintext byte at logical offset `o`:
AES-decrypt the 16-byte ciphertext block containing `o` and mix it with
the closed-form backbuffer. -/
def plainByte (A : List Nat → List Nat → List Nat) (key raw : List Nat)
    (hs o : Nat) : Nat :=
  (mixBlock (A key (rawRead raw (hs + o / 16 * 16) 16))
    (bbAbs raw hs (o / 16 * 16))).getD (o % 16) 0

/-- Header metadata parsed by `OpenInternal`. -/
structure FileMeta where
  m_iHeaderSize : Nat
  m_iFileSize : Nat
  subkey : List Nat
  verifyblock : List Nat
deriving Repr, DecidableEq

/-- Little-endian 32-bit decode, as the reads of `m_iFileSize` and
`subkey_size` behave on the little-endian target. -/
def leU32 (b : List Nat) : Nat :=
  b.getD 0 0 % 256 + b.getD 1 0 % 256 * 256 + b.getD 2 0 % 256 * 65536 +
    b.getD 3 0 % 256 * 16777216

/-- The header-reading prefix of `OpenInternal`: the sequence of
`ReadDirect` calls and early-return checks, from the magic through the
verify block.  Returns `none` on any short read or magic mismatch. -/
def parseHeader (secret raw : List Nat) : Option FileMeta :=
  let header := rawRead raw 0 2
  if header.length < 2 then none
  else if secret.isEmpty ∧ ¬(header.getD 0 0 = 58 ∧ header.getD 1 0 = 124) then none
  else if ¬secret.isEmpty ∧ ¬(header.getD 0 0 = 56 ∧ header.getD 1 0 = 79) then none
  else
    let sizeb := rawRead raw 2 4
    if sizeb.length < 4 then none
    else
      let skb := rawRead raw 6 4
      if skb.length < 4 then none
      else
        let subkeySize := leU32 skb
        let subkey := rawRead raw 10 subkeySize
        if subkey.length < subkeySize then none
        else
          let verifyblock := rawRead raw (10 + subkeySize) 16
          if verifyblock.length < 16 then none
          else some ⟨10 + subkeySize + 16, leU32 sizeb, subkey, verifyblock⟩

/-- A path argument as `OpenInternal` sees it: the C string pointer
returned by `sPath.c_str()` together with the path's character value.
The source's key map is keyed on the raw pointer. -/
structure CPath where
  ptr : Nat
  val : List Nat
deriving Repr, DecidableEq

/-- The process-wide `g_KnownKeys` map (keyed by `const char *`, i.e. by
pointer identity) together with a count of key-derivation invocations
(dongle calls or SHA-512 hashes). -/
structure KeyCache where
  g_KnownKeys : List (Nat × List Nat)
  derivations : Nat
deriving Repr, DecidableEq

/-- Lookup in `g_KnownKeys` by pointer. -/
def cacheFind : List (Nat × List Nat) → Nat → Option (List Nat)
  | [], _ => none
  | (p, k) :: rest, q => if p = q then some k else cacheFind rest q

/-- The key-derivation step of `OpenInternal`: the dongle when no secret
is configured, otherwise the first 24 bytes of
`SHA512(subkey ++ first 47 bytes of the secret)`. -/
def deriveKey (sha512 dongleKey : List Nat → List Nat)
    (secret subkey : List Nat) : List Nat :=
  if secret.isEmpty then dongleKey subkey
  else (sha512 (subkey ++ secret.take 47)).take 24

/-- The AES key `OpenInternal` ends up using for a given parsed header:
the cached key on a cache hit, the freshly derived key otherwise. -/
def openKey (sha512 dongleKey : List Nat → List Nat) (secret : List Nat)
    (meta : FileMeta) (path : CPath) (st : KeyCache) : List Nat :=
  match cacheFind st.g_KnownKeys path.ptr with
  | some k => k
  | none => deriveKey sha512 dongleKey secret meta.subkey

/-- `RageFileObjCrypt_ITG2::OpenInternal`.  Returns the opened file
object (or `none` on failure) together with the updated key cache. -/
def OpenInternal (A : List Nat → List Nat → List Nat)
    (sha512 dongleKey : List Nat → List Nat) (secret : List Nat)
    (path : CPath) (raw : List Nat) (st : KeyCache) :
    Option CryptFile × KeyCache :=
  match parseHeader secret raw with
  | none => (none, st)
  | some meta =>
    let keyed :=
      match cacheFind st.g_KnownKeys path.ptr with
      | some k => (k, st)
      | none =>
        let AESKey := deriveKey sha512 dongleKey secret meta.subkey
        (AESKey, { g_KnownKeys := (path.ptr, AESKey) :: st.g_KnownKeys
                   derivations := st.derivations + 1 })
    let AESKey := keyed.1
    let st2 := keyed.2
    let plaintext := A AESKey meta.verifyblock
    if plaintext.getD 0 0 % 256 = 58 ∧ plaintext.getD 1 0 % 256 = 68 then
      (some { pos := meta.m_iHeaderSize
              m_iHeaderSize := meta.m_iHeaderSize
              m_iFileSize := meta.m_iFileSize
              m_ctx := AESKey
              m_sSecret := secret }, st2)
    else (none, st2)

/-- The compiled-in 47-byte patch secret (`ITG2_PATCH_KEY`), as ASCII
byte values. -/
def ITG2_PATCH_KEY : List Nat :=
  [53, 56, 54, 57, 49, 57, 53, 56, 55, 49, 48, 52, 57, 54, 56, 49, 52,
   57, 49, 48, 57, 52, 51, 56, 54, 55, 51, 48, 52, 57, 56, 54, 48, 55,
   49, 51, 50, 52, 49, 57, 56, 54, 52, 51, 48, 55, 50]

/-- Modelled from the spec: the driver-facing `read` entry point.  The
base-class read wrapper (the RageFileObj read path, which is part of
this repository but not of the crypt-driver source file) truncates a
request that would extend past `plaintext_size` before delegating to
`ReadInternal`, so that only `min n (size - cursor)` bytes are
requested. -/
def ReadClamped (A : List Nat → List Nat → List Nat) (raw : List Nat)
    (f : CryptFile) (n : Nat) : ReadResult :=
  ReadInternal A raw f (min n (f.m_iFileSize - f.pos))

/-! ### Correctness of the block loop -/

lemma length_mixBlock (x b : List Nat) : (mixBlock x b).length = 16 := by
  simp [mixBlock]

lemma mixBlock_getD (x b : List Nat) (j : Nat) (hj : j < 16) :
    (mixBlock x b).getD j 0
      = Nat.xor (x.getD j 0 % 256) ((b.getD j 0 % 256 + 256 - j) % 256) := by
  unfold mixBlock
  simp [List.getD_eq_getElem?_getD, List.getElem?_map, List.getElem?_range hj]

lemma blockAt_rawRead (raw : List Nat) (off L i : Nat) (h : i * 16 + 16 ≤ L) :
    blockAt (rawRead raw off L) i = rawRead raw (off + i * 16) 16 := by
  unfold blockAt rawRead
  rw [List.drop_take, List.drop_drop, List.take_take]
  congr 1
  omega

lemma self_eq_range_map_getD (l : List Nat) :
    l = (List.range l.length).map (fun t => l.getD t 0) := by
  apply List.ext_getElem (by simp)
  intro i h1 h2
  simp [List.getD_eq_getElem?_getD, List.getElem?_eq_getElem h1]

lemma block_eq_plainBytes (A : List Nat → List Nat → List Nat)
    (key raw : List Nat) (hs a : Nat) (ha : a % 16 = 0) :
    mixBlock (A key (rawRead raw (hs + a) 16)) (bbAbs raw hs a)
      = (List.range 16).map (fun t => plainByte A key raw hs (a + t)) := by
  have h16 : ∀ t ∈ List.range 16,
      plainByte A key raw hs (a + t)
        = (mixBlock (A key (rawRead raw (hs + a) 16)) (bbAbs raw hs a)).getD t 0 := by
    intro t ht
    have ht' : t < 16 := List.mem_range.mp ht
    unfold plainByte
    have h1 : (a + t) / 16 * 16 = a := by omega
    have h2 : (a + t) % 16 = t := by omega
    rw [h1, h2]
  rw [List.map_congr_left h16]
  have hlen := length_mixBlock (A key (rawRead raw (hs + a) 16)) (bbAbs raw hs a)
  conv_lhs => rw [self_eq_range_map_getD (mixBlock (A key (rawRead raw (hs + a) 16)) (bbAbs raw hs a))]
  rw [hlen]

lemma cryptLoop_spec (A : List Nat → List Nat → List Nat) (key raw : List Nat)
    (hs startpos L : Nat) (hst : startpos % 16 = 0) :
    ∀ (n i : Nat), 16 * (i + n) ≤ L →
      cryptLoop A key startpos (rawRead raw (hs + startpos) L) i
          (bbAbs raw hs (startpos + i * 16)) n
        = (List.range (16 * n)).map
            (fun t => plainByte A key raw hs (startpos + i * 16 + t)) := by
  intro n
  induction n with
  | zero => intro i h; simp [cryptLoop]
  | succ n ih =>
    intro i h
    have hblk : blockAt (rawRead raw (hs + startpos) L) i
        = rawRead raw (hs + (startpos + i * 16)) 16 := by
      rw [blockAt_rawRead raw (hs + startpos) L i (by omega)]
      congr 1
      omega
    have hbb' :
        (if (startpos + i * 16 + 16) % 4080 ≠ 0
         then blockAt (rawRead raw (hs + startpos) L) i
         else List.replicate 16 0)
          = bbAbs raw hs (startpos + (i + 1) * 16) := by
      unfold bbAbs
      by_cases hz : (startpos + (i + 1) * 16) % 4080 = 0
      · have hnn : ¬ (startpos + i * 16 + 16) % 4080 ≠ 0 := by omega
        simp [hz, hnn]
      · have hne : (startpos + i * 16 + 16) % 4080 ≠ 0 := by omega
        have ho : hs + (startpos + (i + 1) * 16) - 16 = hs + (startpos + i * 16) := by
          omega
        simp only [if_neg hz, if_pos hne, ho, hblk]
    simp only [cryptLoop]
    rw [hbb', hblk, ih (i + 1) (by omega),
      block_eq_plainBytes A key raw hs (startpos + i * 16) (by omega)]
    have hsplit : 16 * (n + 1) = 16 + 16 * n := by ring
    rw [hsplit, List.range_add, List.map_append, List.map_map]
    congr 1
    apply List.map_congr_left
    intro t ht
    simp only [Function.comp]
    congr 1
    omega

lemma ReadInternal_out_aux (A : List Nat → List Nat → List Nat)
    (key raw : List Nat) (hs c n : Nat) (bb : List Nat)
    (hbb : bb = bbAbs raw hs (c / 16 * 16)) :
    ((cryptLoop A key (c / 16 * 16)
        (rawRead raw (hs + c / 16 * 16) (QuantizeUp (c + n) 16 - c / 16 * 16)) 0 bb
        ((QuantizeUp (c + n) 16 - c / 16 * 16) / 16)).drop
          (c - c / 16 * 16)).take n
      = (List.range n).map (fun k => plainByte A key raw hs (c + k)) := by
  have hqu : c + n ≤ QuantizeUp (c + n) 16 := by
    unfold QuantizeUp; omega
  have hstart : c / 16 * 16 % 16 = 0 := by omega
  have hle : c / 16 * 16 ≤ c := by omega
  have hdvd : 16 * (0 + (QuantizeUp (c + n) 16 - c / 16 * 16) / 16)
      ≤ QuantizeUp (c + n) 16 - c / 16 * 16 := by omega
  have hcl := cryptLoop_spec A key raw hs (c / 16 * 16)
    (QuantizeUp (c + n) 16 - c / 16 * 16) hstart
    ((QuantizeUp (c + n) 16 - c / 16 * 16) / 16) 0 hdvd
  simp only [Nat.zero_mul, Nat.add_zero] at hcl
  rw [hbb, hcl]
  have hbufmod : (QuantizeUp (c + n) 16 - c / 16 * 16) % 16 = 0 := by
    unfold QuantizeUp; omega
  have hb16 : 16 * ((QuantizeUp (c + n) 16 - c / 16 * 16) / 16)
      = QuantizeUp (c + n) 16 - c / 16 * 16 := by omega
  rw [hb16]
  apply List.ext_getElem
  · simp
    omega
  · intro k hk1 hk2
    simp only [List.getElem_take, List.getElem_drop, List.getElem_map,
      List.getElem_range]
    congr 1
    have hk : k < n := by simpa using hk2
    omega

/-- Closed form for the bytes a call to `ReadInternal` copies out: byte
`k` of the output is the closed-form plaintext byte at logical offset
`pos + k`. -/
lemma ReadInternal_out (A : List Nat → List Nat → List Nat) (raw : List Nat)
    (f : CryptFile) (n : Nat) :
    (ReadInternal A raw f n).out
      = (List.range n).map
          (fun k => plainByte A f.m_ctx raw f.m_iHeaderSize (f.pos + k)) := by
  by_cases hz : f.pos / 16 * 16 % 4080 = 0
  · simp only [ReadInternal, Tell, ReadDirect, SeekInternal, if_pos hz]
    exact ReadInternal_out_aux A f.m_ctx raw f.m_iHeaderSize f.pos n _
      (by unfold bbAbs; rw [if_pos hz])
  · simp only [ReadInternal, Tell, ReadDirect, SeekInternal, if_neg hz]
    refine ReadInternal_out_aux A f.m_ctx raw f.m_iHeaderSize f.pos n _ ?_
    unfold bbAbs
    rw [if_neg hz]
    unfold rawRead
    congr 2
    omega

lemma ReadInternal_ret (A : List Nat → List Nat → List Nat) (raw : List Nat)
    (f : CryptFile) (n : Nat) : (ReadInternal A raw f n).ret = n := rfl

lemma ReadInternal_file (A : List Nat → List Nat → List Nat) (raw : List Nat)
    (f : CryptFile) (n : Nat) :
    (ReadInternal A raw f n).file = { f with pos := f.pos + n } := by
  unfold ReadInternal Tell ReadDirect SeekInternal
  by_cases hz : f.pos / 16 * 16 % 4080 = 0 <;> simp [hz]

lemma ReadInternal_out_length (A : List Nat → List Nat → List Nat)
    (raw : List Nat) (f : CryptFile) (n : Nat) :
    (ReadInternal A raw f n).out.length = n := by
  rw [ReadInternal_out]
  simp

lemma rawRead_congr_ge (raw1 raw2 : List Nat) (cut off len : Nat)
    (h : raw1.drop cut = raw2.drop cut) (hoff : cut ≤ off) :
    rawRead raw1 off len = rawRead raw2 off len := by
  unfold rawRead
  have e1 : List.drop (off - cut) (List.drop cut raw1) = List.drop off raw1 := by
    rw [List.drop_drop]
    congr 1
    omega
  have e2 : List.drop (off - cut) (List.drop cut raw2) = List.drop off raw2 := by
    rw [List.drop_drop]
    congr 1
    omega
  rw [← e1, ← e2, h]

/-- Plaintext bytes at or past a chain-reset boundary `cut` depend only
on raw bytes at or past `header_size + cut`. -/
lemma plainByte_congr (A : List Nat → List Nat → List Nat)
    (key raw1 raw2 : List Nat) (hs o cut : Nat)
    (hagree : raw1.drop (hs + cut) = raw2.drop (hs + cut))
    (hcut : cut % 4080 = 0) (ho : cut ≤ o) :
    plainByte A key raw1 hs o = plainByte A key raw2 hs o := by
  have hblkge : cut ≤ o / 16 * 16 := by omega
  have hct : rawRead raw1 (hs + o / 16 * 16) 16 = rawRead raw2 (hs + o / 16 * 16) 16 :=
    rawRead_congr_ge raw1 raw2 (hs + cut) _ 16 hagree (by omega)
  have hbb : bbAbs raw1 hs (o / 16 * 16) = bbAbs raw2 hs (o / 16 * 16) := by
    unfold bbAbs
    by_cases hz : o / 16 * 16 % 4080 = 0
    · rw [if_pos hz, if_pos hz]
    · rw [if_neg hz, if_neg hz]
      have hge : cut + 16 ≤ o / 16 * 16 := by omega
      exact rawRead_congr_ge raw1 raw2 (hs + cut) _ 16 hagree (by omega)
  unfold plainByte
  rw [hct, hbb]

/-! ### The claims -/

/-- C1: for every `CryptFile` state, cursor `c = pos` and request length
`n`, byte `k` of the plaintext window `ReadInternal` delivers (for `k <
n`) equals the AES decryption of the 16-byte ciphertext block containing
logical offset `c + k`, XORed at in-block index `j = (c+k) % 16` with
`(backbuffer[j] - j) mod 256`, where the backbuffer of the block
starting at offset `a` is all zeros when `a % 4080 = 0` and otherwise
the 16 ciphertext bytes at raw offset `header_size + a - 16`; exactly
the slice `pt[c - start .. c - start + n)` is delivered (`n` bytes). -/
theorem C1_read_window_formula (A : List Nat → List Nat → List Nat)
    (raw : List Nat) (f : CryptFile) (n k : Nat) (hk : k < n) :
    (ReadInternal A raw f n).out.getD k 0
        = Nat.xor
            ((A f.m_ctx (rawRead raw (f.m_iHeaderSize + (f.pos + k) / 16 * 16) 16)).getD
              ((f.pos + k) % 16) 0 % 256)
            (((bbAbs raw f.m_iHeaderSize ((f.pos + k) / 16 * 16)).getD
                ((f.pos + k) % 16) 0 % 256 + 256 - (f.pos + k) % 16) % 256)
      ∧ (ReadInternal A raw f n).out.length = n := by
  constructor
  · rw [ReadInternal_out]
    have hgd : ((List.range n).map
          (fun k => plainByte A f.m_ctx raw f.m_iHeaderSize (f.pos + k))).getD k 0
        = plainByte A f.m_ctx raw f.m_iHeaderSize (f.pos + k) := by
      simp [List.getD_eq_getElem?_getD, List.getElem?_map, List.getElem?_range hk]
    rw [hgd, plainByte, mixBlock_getD _ _ _ (by omega)]
  · exact ReadInternal_out_length A raw f n

theorem C1_read_window_formula_witness :
    (ReadInternal (fun _ ct => ct)
        ([58, 124, 100, 0, 0, 0, 0, 0, 0, 0] ++ List.replicate 16 0 ++
          (List.range 48).map (fun i => i * 3 % 256))
        ⟨17, 26, 100, List.replicate 24 0, []⟩ 10).out.getD 3 0
        = Nat.xor
            (((fun (_ ct : List Nat) => ct) (List.replicate 24 0)
                (rawRead
                  ([58, 124, 100, 0, 0, 0, 0, 0, 0, 0] ++ List.replicate 16 0 ++
                    (List.range 48).map (fun i => i * 3 % 256))
                  (26 + (17 + 3) / 16 * 16) 16)).getD ((17 + 3) % 16) 0 % 256)
            (((bbAbs
                  ([58, 124, 100, 0, 0, 0, 0, 0, 0, 0] ++ List.replicate 16 0 ++
                    (List.range 48).map (fun i => i * 3 % 256))
                  26 ((17 + 3) / 16 * 16)).getD ((17 + 3) % 16) 0 % 256 + 256 -
              (17 + 3) % 16) % 256)
      ∧ (ReadInternal (fun _ ct => ct)
          ([58, 124, 100, 0, 0, 0, 0, 0, 0, 0] ++ List.replicate 16 0 ++
            (List.range 48).map (fun i => i * 3 % 256))
          ⟨17, 26, 100, List.replicate 24 0, []⟩ 10).out.length = 10 :=
  C1_read_window_formula (fun _ ct => ct)
    ([58, 124, 100, 0, 0, 0, 0, 0, 0, 0] ++ List.replicate 16 0 ++
      (List.range 48).map (fun i => i * 3 % 256))
    ⟨17, 26, 100, List.replicate 24 0, []⟩ 10 3 (by decide)

/-- C2: the driver-facing read truncates at `plaintext_size`: starting
from cursor `c ≤ S` a request of `n` bytes returns exactly
`min n (S - c)` bytes and leaves the cursor at `min (c + n) S`. -/
theorem C2_read_truncation (A : List Nat → List Nat → List Nat)
    (raw : List Nat) (f : CryptFile) (n : Nat) (h : f.pos ≤ f.m_iFileSize) :
    (ReadClamped A raw f n).ret = min n (f.m_iFileSize - f.pos)
      ∧ (ReadClamped A raw f n).out.length = min n (f.m_iFileSize - f.pos)
      ∧ (ReadClamped A raw f n).file.pos = min (f.pos + n) f.m_iFileSize := by
  refine ⟨ReadInternal_ret A raw f _, ReadInternal_out_length A raw f _, ?_⟩
  unfold ReadClamped
  rw [ReadInternal_file]
  show f.pos + min n (f.m_iFileSize - f.pos) = min (f.pos + n) f.m_iFileSize
  omega

theorem C2_read_truncation_witness :
    (ReadClamped (fun _ ct => ct) [] ⟨95, 26, 100, List.replicate 24 0, []⟩ 10).ret
        = min 10 (100 - 95)
      ∧ (ReadClamped (fun _ ct => ct) [] ⟨95, 26, 100, List.replicate 24 0, []⟩ 10).out.length
        = min 10 (100 - 95)
      ∧ (ReadClamped (fun _ ct => ct) [] ⟨95, 26, 100, List.replicate 24 0, []⟩ 10).file.pos
        = min (95 + 10) 100 :=
  C2_read_truncation (fun _ ct => ct) [] ⟨95, 26, 100, List.replicate 24 0, []⟩ 10
    (by decide)

/-- C3 counterexample: an open whose verify-block check fails (the
decrypted block is all zeros, so it does not begin with ":D") returns no
file object, yet the key cache does not stay as it was: the freshly
derived key has been inserted before the check. -/
theorem C3_cache_poisoned_on_failed_verify :
    (OpenInternal (fun _ _ => List.replicate 16 0) (fun _ => [])
        (fun _ => List.replicate 24 7) [] ⟨0, [1]⟩
        ([58, 124, 100, 0, 0, 0, 0, 0, 0, 0] ++ List.replicate 16 0)
        ⟨[], 0⟩).1 = none
      ∧ (OpenInternal (fun _ _ => List.replicate 16 0) (fun _ => [])
          (fun _ => List.replicate 24 7) [] ⟨0, [1]⟩
          ([58, 124, 100, 0, 0, 0, 0, 0, 0, 0] ++ List.replicate 16 0)
          ⟨[], 0⟩).2 ≠ (⟨[], 0⟩ : KeyCache) := by
  decide

/-- C3 amended: the cache entry is inserted immediately after key
derivation and before the verify-block check: whenever the header parses
and the cache lookup misses, the open leaves the cache extended with the
derived key for the looked-up pointer — whether or not the verify-block
check subsequently succeeds. -/
theorem C3_cache_insert_after_derivation
    (A : List Nat → List Nat → List Nat) (sha512 dongleKey : List Nat → List Nat)
    (secret : List Nat) (path : CPath) (raw : List Nat) (st : KeyCache)
    (meta : FileMeta) (hp : parseHeader secret raw = some meta)
    (hm : cacheFind st.g_KnownKeys path.ptr = none) :
    (OpenInternal A sha512 dongleKey secret path raw st).2
      = { g_KnownKeys :=
            (path.ptr, deriveKey sha512 dongleKey secret meta.subkey) :: st.g_KnownKeys
          derivations := st.derivations + 1 } := by
  unfold OpenInternal
  rw [hp]
  simp only [hm]
  split <;> rfl

theorem C3_cache_insert_after_derivation_witness :
    (OpenInternal (fun _ _ => List.replicate 16 0) (fun _ => [])
        (fun _ => List.replicate 24 7) [] ⟨0, [1]⟩
        ([58, 124, 100, 0, 0, 0, 0, 0, 0, 0] ++ List.replicate 16 0)
        ⟨[], 0⟩).2
      = { g_KnownKeys :=
            (0, deriveKey (fun _ => []) (fun _ => List.replicate 24 7) []
              (FileMeta.mk 26 100 [] (List.replicate 16 0)).subkey) :: ([] : List (Nat × List Nat))
          derivations := 0 + 1 } :=
  C3_cache_insert_after_derivation (fun _ _ => List.replicate 16 0) (fun _ => [])
    (fun _ => List.replicate 24 7) [] ⟨0, [1]⟩
    ([58, 124, 100, 0, 0, 0, 0, 0, 0, 0] ++ List.replicate 16 0)
    ⟨[], 0⟩ ⟨26, 100, [], List.replicate 16 0⟩ (by decide) (by decide)

/-- C4: the key cache is keyed by the raw `const char *` pointer of the
path, not by the path's string value: two sequential opens of the same
path value, presented through distinct string buffers (pointer ids 0 and
1), both reach the key-derivation step, so the deriver is invoked twice
rather than at most once. -/
theorem C4_pointer_identity_double_derivation :
    (OpenInternal (fun _ _ => 58 :: 68 :: List.replicate 14 0) (fun _ => [])
        (fun _ => List.replicate 24 7) [] ⟨1, [1]⟩
        ([58, 124, 100, 0, 0, 0, 0, 0, 0, 0] ++ List.replicate 16 0)
        (OpenInternal (fun _ _ => 58 :: 68 :: List.replicate 14 0) (fun _ => [])
          (fun _ => List.replicate 24 7) [] ⟨0, [1]⟩
          ([58, 124, 100, 0, 0, 0, 0, 0, 0, 0] ++ List.replicate 16 0)
          ⟨[], 0⟩).2).2.derivations = 2 := by
  decide

/-- C5: once the header has parsed, the open succeeds (produces a file
object) iff the AES decryption of the 16-byte verify block under the key
the open uses — `openKey`: the cached key on a hit, the derived key on a
miss — begins with the bytes ':' then 'D'; the remaining 14 decrypted
bytes are never examined: any decrypt primitive agreeing with `A` on
those first two bytes yields the same open outcome. -/
lemma OpenInternal_isSome_iff (B : List Nat → List Nat → List Nat)
    (sha512 dongleKey : List Nat → List Nat) (secret : List Nat)
    (path : CPath) (raw : List Nat) (st : KeyCache) (meta : FileMeta)
    (hp : parseHeader secret raw = some meta) :
    (OpenInternal B sha512 dongleKey secret path raw st).1.isSome = true
      ↔ ((B (openKey sha512 dongleKey secret meta path st) meta.verifyblock).getD 0 0 % 256 = 58
          ∧ (B (openKey sha512 dongleKey secret meta path st) meta.verifyblock).getD 1 0 % 256 = 68) := by
  unfold OpenInternal
  rw [hp]
  cases hc : cacheFind st.g_KnownKeys path.ptr with
  | some k =>
    have hok : openKey sha512 dongleKey secret meta path st = k := by
      unfold openKey
      rw [hc]
    rw [hok]
    by_cases hv : (B k meta.verifyblock).getD 0 0 % 256 = 58
        ∧ (B k meta.verifyblock).getD 1 0 % 256 = 68
    all_goals
      simp only [List.getD_eq_getElem?_getD] at hv
      simp [hv]
  | none =>
    have hok : openKey sha512 dongleKey secret meta path st
        = deriveKey sha512 dongleKey secret meta.subkey := by
      unfold openKey
      rw [hc]
    rw [hok]
    by_cases hv : (B (deriveKey sha512 dongleKey secret meta.subkey) meta.verifyblock).getD 0 0 % 256 = 58
        ∧ (B (deriveKey sha512 dongleKey secret meta.subkey) meta.verifyblock).getD 1 0 % 256 = 68
    all_goals
      simp only [List.getD_eq_getElem?_getD] at hv
      simp [hv]

theorem C5_verify_gating (A A2 : List Nat → List Nat → List Nat)
    (sha512 dongleKey : List Nat → List Nat) (secret : List Nat)
    (path : CPath) (raw : List Nat) (st : KeyCache) (meta : FileMeta)
    (hp : parseHeader secret raw = some meta)
    (hagree0 : (A2 (openKey sha512 dongleKey secret meta path st) meta.verifyblock).getD 0 0 % 256
      = (A (openKey sha512 dongleKey secret meta path st) meta.verifyblock).getD 0 0 % 256)
    (hagree1 : (A2 (openKey sha512 dongleKey secret meta path st) meta.verifyblock).getD 1 0 % 256
      = (A (openKey sha512 dongleKey secret meta path st) meta.verifyblock).getD 1 0 % 256) :
    ((OpenInternal A sha512 dongleKey secret path raw st).1.isSome
        ↔ ((A (openKey sha512 dongleKey secret meta path st) meta.verifyblock).getD 0 0 % 256 = 58
            ∧ (A (openKey sha512 dongleKey secret meta path st) meta.verifyblock).getD 1 0 % 256 = 68))
      ∧ (OpenInternal A2 sha512 dongleKey secret path raw st).1.isSome
          = (OpenInternal A sha512 dongleKey secret path raw st).1.isSome := by
  have h1 := OpenInternal_isSome_iff A sha512 dongleKey secret path raw st meta hp
  have h2 := OpenInternal_isSome_iff A2 sha512 dongleKey secret path raw st meta hp
  refine ⟨h1, ?_⟩
  by_cases hv : (A (openKey sha512 dongleKey secret meta path st) meta.verifyblock).getD 0 0 % 256 = 58
      ∧ (A (openKey sha512 dongleKey secret meta path st) meta.verifyblock).getD 1 0 % 256 = 68
  · rw [h1.mpr hv, h2.mpr ⟨hagree0.trans hv.1, hagree1.trans hv.2⟩]
  · have hA : (OpenInternal A sha512 dongleKey secret path raw st).1.isSome = false := by
      cases hb : (OpenInternal A sha512 dongleKey secret path raw st).1.isSome
      · rfl
      · exact absurd (h1.mp hb) hv
    have hA2 : (OpenInternal A2 sha512 dongleKey secret path raw st).1.isSome = false := by
      cases hb : (OpenInternal A2 sha512 dongleKey secret path raw st).1.isSome
      · rfl
      · exact absurd ⟨hagree0.symm.trans (h2.mp hb).1, hagree1.symm.trans (h2.mp hb).2⟩ hv
    rw [hA, hA2]

theorem C5_verify_gating_witness :
    ((OpenInternal (fun _ _ => 58 :: 68 :: List.replicate 14 0) (fun _ => [])
          (fun _ => List.replicate 24 7) [] ⟨0, [1]⟩
          ([58, 124, 100, 0, 0, 0, 0, 0, 0, 0] ++ List.replicate 16 0)
          ⟨[], 0⟩).1.isSome
        ↔ (((fun (_ _ : List Nat) => 58 :: 68 :: List.replicate 14 0)
              (openKey (fun _ => []) (fun _ => List.replicate 24 7) []
                ⟨26, 100, [], List.replicate 16 0⟩ ⟨0, [1]⟩ ⟨[], 0⟩)
              (FileMeta.mk 26 100 [] (List.replicate 16 0)).verifyblock).getD 0 0 % 256 = 58
            ∧ ((fun (_ _ : List Nat) => 58 :: 68 :: List.replicate 14 0)
                (openKey (fun _ => []) (fun _ => List.replicate 24 7) []
                  ⟨26, 100, [], List.replicate 16 0⟩ ⟨0, [1]⟩ ⟨[], 0⟩)
                (FileMeta.mk 26 100 [] (List.replicate 16 0)).verifyblock).getD 1 0 % 256 = 68))
      ∧ (OpenInternal (fun _ _ => 58 :: 68 :: List.replicate 14 (99 : Nat)) (fun _ => [])
            (fun _ => List.replicate 24 7) [] ⟨0, [1]⟩
            ([58, 124, 100, 0, 0, 0, 0, 0, 0, 0] ++ List.replicate 16 0)
            ⟨[], 0⟩).1.isSome
          = (OpenInternal (fun _ _ => 58 :: 68 :: List.replicate 14 0) (fun _ => [])
              (fun _ => List.replicate 24 7) [] ⟨0, [1]⟩
              ([58, 124, 100, 0, 0, 0, 0, 0, 0, 0] ++ List.replicate 16 0)
              ⟨[], 0⟩).1.isSome :=
  C5_verify_gating (fun _ _ => 58 :: 68 :: List.replicate 14 0)
    (fun _ _ => 58 :: 68 :: List.replicate 14 99) (fun _ => [])
    (fun _ => List.replicate 24 7) [] ⟨0, [1]⟩
    ([58, 124, 100, 0, 0, 0, 0, 0, 0, 0] ++ List.replicate 16 0)
    ⟨[], 0⟩ ⟨26, 100, [], List.replicate 16 0⟩ (by decide) (by decide) (by decide)

/-- C6 counterexample: with an empty raw source, the body read demanded
16 bytes and was delivered 0, yet `ReadInternal` still returns the full
requested count 16: the short read is not surfaced to the caller. -/
theorem C6_short_read_returns_requested :
    (rawRead [] (26 + 0) 16).length = 0
      ∧ (ReadInternal (fun _ ct => ct) []
          ⟨0, 26, 100, List.replicate 24 0, []⟩ 16).ret = 16 := by
  decide

/-- C6 amended: `ReadInternal` ignores the byte counts the raw source
delivers for the look-behind block and the ciphertext window and always
returns the requested count; a short read is never surfaced through the
return value. -/
theorem C6_ret_always_requested (A : List Nat → List Nat → List Nat)
    (raw : List Nat) (f : CryptFile) (n : Nat) :
    (ReadInternal A raw f n).ret = n :=
  ReadInternal_ret A raw f n

/-- C7: on a patch-variant open (47-byte secret, hence non-empty) whose
header parses and whose path misses the cache, the open derives exactly
the first 24 bytes of `SHA-512(subkey ++ secret)` and stores that key in
the cache. -/
theorem C7_sha512_key_derivation (A : List Nat → List Nat → List Nat)
    (sha512 dongleKey : List Nat → List Nat) (secret : List Nat)
    (path : CPath) (raw : List Nat) (st : KeyCache) (meta : FileMeta)
    (hs47 : secret.length = 47)
    (hp : parseHeader secret raw = some meta)
    (hm : cacheFind st.g_KnownKeys path.ptr = none) :
    (OpenInternal A sha512 dongleKey secret path raw st).2.g_KnownKeys
      = (path.ptr, (sha512 (meta.subkey ++ secret)).take 24) :: st.g_KnownKeys := by
  have hne : ¬ secret.isEmpty := by
    cases secret
    · simp at hs47
    · simp
  have hd : deriveKey sha512 dongleKey secret meta.subkey
      = (sha512 (meta.subkey ++ secret)).take 24 := by
    unfold deriveKey
    rw [if_neg (by simpa using hne),
      show List.take 47 secret = secret from List.take_of_length_le (by omega)]
  unfold OpenInternal
  rw [hp]
  simp only [hm]
  rw [← hd]
  split <;> rfl

theorem C7_sha512_key_derivation_witness :
    (OpenInternal (fun _ _ => 58 :: 68 :: List.replicate 14 0)
        (fun l => (List.range 64).map (fun i => (l.length + i) % 256))
        (fun _ => List.replicate 24 7) ITG2_PATCH_KEY ⟨5, []⟩
        ([56, 79, 0, 0, 0, 0, 64, 0, 0, 0] ++ List.range 64 ++ List.replicate 16 0)
        ⟨[], 0⟩).2.g_KnownKeys
      = (5, ((fun l => (List.range 64).map (fun i => (l.length + i) % 256))
            ((FileMeta.mk 90 0 (List.range 64) (List.replicate 16 0)).subkey ++
              ITG2_PATCH_KEY)).take 24) :: ([] : List (Nat × List Nat)) :=
  C7_sha512_key_derivation (fun _ _ => 58 :: 68 :: List.replicate 14 0)
    (fun l => (List.range 64).map (fun i => (l.length + i) % 256))
    (fun _ => List.replicate 24 7) ITG2_PATCH_KEY ⟨5, []⟩
    ([56, 79, 0, 0, 0, 0, 64, 0, 0, 0] ++ List.range 64 ++ List.replicate 16 0)
    ⟨[], 0⟩ ⟨90, 0, List.range 64, List.replicate 16 0⟩
    (by decide) (by decide) (by decide)

/-- C8: two runs of `ReadInternal` on the same file state, over raw
sources that agree at every raw offset at or past
`header_size + 4080·m` (`m ≥ 1`), deliver identical plaintext bytes at
every logical offset at or past `4080·m`: mutating ciphertext strictly
before a chain-reset boundary (for example block 254) cannot change the
plaintext decoded at or after the boundary (for example block 255). -/
theorem C8_segment_independence (A : List Nat → List Nat → List Nat)
    (raw1 raw2 : List Nat) (f : CryptFile) (m n k : Nat) (hm : 1 ≤ m)
    (hagree : raw1.drop (f.m_iHeaderSize + 4080 * m)
      = raw2.drop (f.m_iHeaderSize + 4080 * m))
    (hk : k < n) (hoff : 4080 * m ≤ f.pos + k) :
    (ReadInternal A raw1 f n).out.getD k 0
      = (ReadInternal A raw2 f n).out.getD k 0 := by
  rw [ReadInternal_out, ReadInternal_out]
  have hgd : ∀ raw : List Nat,
      ((List.range n).map
          (fun k => plainByte A f.m_ctx raw f.m_iHeaderSize (f.pos + k))).getD k 0
        = plainByte A f.m_ctx raw f.m_iHeaderSize (f.pos + k) := by
    intro raw
    simp [List.getD_eq_getElem?_getD, List.getElem?_map, List.getElem?_range hk]
  rw [hgd raw1, hgd raw2]
  exact plainByte_congr A f.m_ctx raw1 raw2 f.m_iHeaderSize (f.pos + k) (4080 * m)
    hagree (by omega) hoff

theorem C8_segment_independence_witness :
    (ReadInternal (fun _ ct => ct)
        (List.replicate 4096 0)
        ⟨4080, 0, 8000, List.replicate 24 0, []⟩ 1).out.getD 0 0
      = (ReadInternal (fun _ ct => ct)
          (List.replicate 4080 1 ++ List.replicate 16 0)
          ⟨4080, 0, 8000, List.replicate 24 0, []⟩ 1).out.getD 0 0 :=
  C8_segment_independence (fun _ ct => ct)
    (List.replicate 4096 0) (List.replicate 4080 1 ++ List.replicate 16 0)
    ⟨4080, 0, 8000, List.replicate 24 0, []⟩ 1 1 0
    (by decide)
    (by
      show (List.replicate 4096 (0 : Nat)).drop (0 + 4080 * 1)
          = (List.replicate 4080 1 ++ List.replicate 16 0).drop (0 + 4080 * 1)
      have hd : (0 : Nat) + 4080 * 1 = 4080 := by norm_num
      rw [hd, show (4096 : Nat) = 4080 + 16 by norm_num, List.replicate_add,
        List.drop_left' (List.length_replicate 4080 0),
        List.drop_left' (List.length_replicate 4080 1)])
    (by decide) (by decide)

/-- C9: split-read equivalence: for any split `0 < k < n` with the
request inside `plaintext_size`, a single read of `n` bytes delivers the
concatenation of a read of `k` bytes followed by a read of `n - k` bytes
from the resulting state, and both executions leave the cursor at
`pos + n`. -/
theorem C9_split_read (A : List Nat → List Nat → List Nat) (raw : List Nat)
    (f : CryptFile) (n k : Nat) (hk0 : 0 < k) (hkn : k < n)
    (hsz : f.pos + n ≤ f.m_iFileSize) :
    (ReadInternal A raw f n).out
        = (ReadInternal A raw f k).out
            ++ (ReadInternal A raw ((ReadInternal A raw f k).file) (n - k)).out
      ∧ (ReadInternal A raw f n).file.pos = f.pos + n
      ∧ (ReadInternal A raw ((ReadInternal A raw f k).file) (n - k)).file.pos
          = f.pos + n := by
  refine ⟨?_, ?_, ?_⟩
  · rw [ReadInternal_out, ReadInternal_out, ReadInternal_file, ReadInternal_out]
    show (List.range n).map (fun t => plainByte A f.m_ctx raw f.m_iHeaderSize (f.pos + t))
        = (List.range k).map (fun t => plainByte A f.m_ctx raw f.m_iHeaderSize (f.pos + t))
          ++ (List.range (n - k)).map (fun t => plainByte A f.m_ctx raw f.m_iHeaderSize (f.pos + k + t))
    nth_rewrite 1 [show n = k + (n - k) by omega]
    rw [List.range_add, List.map_append, List.map_map]
    congr 1
    apply List.map_congr_left
    intro t ht
    simp only [Function.comp]
    congr 1
    omega
  · rw [ReadInternal_file]
  · rw [ReadInternal_file, ReadInternal_file]
    show f.pos + k + (n - k) = f.pos + n
    omega

theorem C9_split_read_witness :
    (ReadInternal (fun _ ct => ct) [] ⟨0, 26, 100, List.replicate 24 0, []⟩ 3).out
        = (ReadInternal (fun _ ct => ct) [] ⟨0, 26, 100, List.replicate 24 0, []⟩ 1).out
            ++ (ReadInternal (fun _ ct => ct) []
                ((ReadInternal (fun _ ct => ct) [] ⟨0, 26, 100, List.replicate 24 0, []⟩ 1).file)
                (3 - 1)).out
      ∧ (ReadInternal (fun _ ct => ct) [] ⟨0, 26, 100, List.replicate 24 0, []⟩ 3).file.pos
          = 0 + 3
      ∧ (ReadInternal (fun _ ct => ct) []
          ((ReadInternal (fun _ ct => ct) [] ⟨0, 26, 100, List.replicate 24 0, []⟩ 1).file)
          (3 - 1)).file.pos = 0 + 3 :=
  C9_split_read (fun _ ct => ct) [] ⟨0, 26, 100, List.replicate 24 0, []⟩ 3 1
    (by decide) (by decide) (by decide)

/-- C10: frame property of the read path: `ReadInternal` changes only
the position field of the file object — the parsed header metadata
(`m_iHeaderSize`, `m_iFileSize`), the AES key material (`m_ctx`) and the
configured secret are unchanged — and `SeekInternal` and `Tell` likewise
touch nothing but the position.  The key cache is untouched by
construction: none of the read-path operations takes or returns a
`KeyCache`. -/
theorem C10_read_frame (A : List Nat → List Nat → List Nat) (raw : List Nat)
    (f : CryptFile) (n p : Nat) :
    ((ReadInternal A raw f n).file.m_iHeaderSize = f.m_iHeaderSize
        ∧ (ReadInternal A raw f n).file.m_iFileSize = f.m_iFileSize
        ∧ (ReadInternal A raw f n).file.m_ctx = f.m_ctx
        ∧ (ReadInternal A raw f n).file.m_sSecret = f.m_sSecret
        ∧ (ReadInternal A raw f n).file.pos = f.pos + n)
      ∧ ((SeekInternal f p).m_iHeaderSize = f.m_iHeaderSize
        ∧ (SeekInternal f p).m_iFileSize = f.m_iFileSize
        ∧ (SeekInternal f p).m_ctx = f.m_ctx
        ∧ (SeekInternal f p).m_sSecret = f.m_sSecret)
      ∧ Tell f = f.pos := by
  rw [ReadInternal_file]
  exact ⟨⟨rfl, rfl, rfl, rfl, rfl⟩, ⟨rfl, rfl, rfl, rfl⟩, rfl⟩

end ITG2
